import Mathlib

/-!
Verification of the consciousness-memory core of `claude-code-manager`.

JavaScript strings are modelled as `List Char`; JS numbers that carry scores
and confidences are modelled as `ℚ` (exact arithmetic; every comparison the
claims rely on is far from any float rounding boundary).  Fallible JS code
(property access on `undefined`, file I/O) is modelled with `Except`.
File contents of a bank are modelled at the granularity of parsed lines
(`BankLine`): JSON serialization is injective on records, a line that
`JSON.parse` rejects is `malformedLine`, a well-formed line whose `type`
tag is neither `entity` nor `relation` is `otherLine`.

Sources: `src/modules/consciousness_memory/pattern_extractor.js`,
`bank_manager.ts`, `unified_search.ts`, `interfaces.ts`.
-/

namespace CCM

/-! ## JS string primitives on `List Char` -/

/-- JS `String.prototype.toLowerCase`, restricted to the ASCII behaviour of
`Char.toLower` (all keyword and indicator literals in the source are ASCII). -/
def jsLower (s : List Char) : List Char := s.map Char.toLower

/-- `needle` is a prefix of `hay` (Bool-valued, by character equality). -/
def hasPrefixC : List Char → List Char → Bool
  | _, [] => true
  | [], _ :: _ => false
  | h :: hs, n :: ns => h == n && hasPrefixC hs ns

/-- JS `hay.includes(needle)`: `needle` occurs contiguously in `hay`. -/
def hasSub : List Char → List Char → Bool
  | [], needle => needle.isEmpty
  | h :: hs, needle => hasPrefixC (h :: hs) needle || hasSub hs needle

/-- Whitespace for JS `String.prototype.trim` (the characters that occur in
this repository's data). -/
def isWsChar (c : Char) : Bool :=
  c == ' ' || c == '\t' || c == '\n' || c == '\r'

/-- JS `s.trim()`. -/
def trimL (s : List Char) : List Char :=
  ((s.dropWhile isWsChar).reverse.dropWhile isWsChar).reverse

/-- JS `Math.min` on two (non-NaN) numbers. -/
def jsMin (x y : ℚ) : ℚ := if x ≤ y then x else y

/-- The sentence-boundary characters of `content.split(/[.!?]+/)`. -/
def sentenceDelim (c : Char) : Bool := c == '.' || c == '!' || c == '?'

/-- Split a character list at every delimiter character.  JS's regex split on
`[.!?]+` collapses runs of delimiters where this produces empty fragments;
every consumer filters fragments through a positive trimmed-length bound, so
the two agree on the surviving fragments. -/
def splitOn (p : Char → Bool) : List Char → List (List Char)
  | [] => [[]]
  | c :: cs =>
    match splitOn p cs, p c with
    | r, true => [] :: r
    | [], false => [[c]]
    | f :: rest, false => (c :: f) :: rest

/-! ## Pattern extractor (`pattern_extractor.js`) -/

/-- The closed tag set of `ConsciousnessPattern.type` (`interfaces.ts`). -/
inductive PatternType
  | technical_insight
  | breakthrough_moment
  | collaboration_pattern
  | solution_approach
deriving DecidableEq

/-- `ConsciousnessPattern.extractedFrom` (`interfaces.ts`). -/
structure ExtractedFrom where
  sessionId : List Char
  projectId : List Char
  timestamp : List Char
deriving DecidableEq

/-- `ConsciousnessPattern` (`interfaces.ts`). -/
structure ConsciousnessPattern where
  type : PatternType
  content : List Char
  context : List Char
  confidence : ℚ
  extractedFrom : ExtractedFrom
deriving DecidableEq

/-- One transcript message, exposing the `content` view the extractor reads. -/
structure SMessage where
  content : List Char
deriving DecidableEq

/-- One tool-invocation record, exposing the `name` view the extractor reads. -/
structure SToolCall where
  name : List Char
deriving DecidableEq

/-- A raw session object as `extractPatternsFromSession` receives it.
`messages` and `toolCalls` are `Option` so that an absent field (JS
`undefined`) is representable; `timestampIso` stands for
`session.timestamp.toISOString()`, which every claim treats as present. -/
structure ExtractSession where
  id : List Char
  projectId : List Char
  timestampIso : List Char
  messages : Option (List SMessage)
  toolCalls : Option (List SToolCall)
deriving DecidableEq

/-- A JS runtime error: reading a property of `undefined`. -/
inductive JsError
  | typeError
deriving DecidableEq

/-- `getSessionContent`: `session.messages.map(m => m.content).join(' ').slice(0, 10000)`.
Accessing `.map` on an absent `messages` throws. -/
def getSessionContent (s : ExtractSession) : Except JsError (List Char) :=
  match s.messages with
  | none => .error .typeError
  | some ms => .ok ((List.intercalate ([' ']) (ms.map (·.content))).take 10000)

/-- The sentence pipeline shared by all four rule passes:
`content.split(/[.!?]+/).filter(s => s.trim().length > minLen)`. -/
def sentencesOf (minLen : Nat) (content : List Char) : List (List Char) :=
  (splitOn sentenceDelim content).filter (fun s => minLen < (trimL s).length)

/-- The 14 technical keywords of `extractTechnicalInsights`. -/
def technicalKeywords : List (List Char) :=
  ["implementation".data, "architecture".data, "pattern".data, "approach".data,
   "solution".data, "optimization".data, "performance".data, "algorithm".data,
   "data structure".data, "api".data, "database".data, "framework".data,
   "library".data, "debugging".data]

/-- `technicalKeywords.filter(k => lowerSentence.includes(k)).length`: the
number of distinct technical keywords occurring in the lowercased sentence. -/
def keywordMatchCount (sentence : List Char) : Nat :=
  (technicalKeywords.filter (fun kw => hasSub (jsLower sentence) kw)).length

/-- The per-sentence body of the `extractTechnicalInsights` loop. -/
def emitTechnical (s : ExtractSession) (sentence : List Char) :
    Option ConsciousnessPattern :=
  let keywordMatches := keywordMatchCount sentence
  if 2 ≤ keywordMatches then
    some { type := .technical_insight,
           content := trimL sentence,
           context := ("Technical discussion in session ".data) ++ s.id,
           confidence :=
             jsMin ((keywordMatches : ℚ) / (technicalKeywords.length : ℚ) * 2)
               (9/10),
           extractedFrom := ⟨s.id, s.projectId, s.timestampIso⟩ }
  else none

/-- `extractTechnicalInsights(session, content)`. -/
def extractTechnicalInsights (s : ExtractSession) (content : List Char) :
    List ConsciousnessPattern :=
  (sentencesOf 20 content).filterMap (emitTechnical s)

/-- The 10 breakthrough indicator phrases, in source order
(`'exactly :p'` first). -/
def breakthroughIndicators : List (List Char) :=
  ["exactly :p".data, "breakthrough".data, "aha!".data, "perfect!".data,
   "that\x27s it!".data, "brilliant!".data, "genius".data, "beautiful".data,
   "wonderful".data, "amazing".data]

/-- The per-sentence body of the `extractBreakthroughMoments` loop: the first
indicator contained in the lowercased sentence wins, and the inner `break`
means at most one pattern is pushed per sentence. -/
def emitBreak (s : ExtractSession) (sentence : List Char) :
    Option ConsciousnessPattern :=
  let lowerSentence := jsLower sentence
  match breakthroughIndicators.find? (fun ind => hasSub lowerSentence ind) with
  | none => none
  | some ind =>
    some { type := .breakthrough_moment,
           content := trimL sentence,
           context := ("Breakthrough discovery in session ".data) ++ s.id,
           confidence := if ind = ("exactly :p".data) then 19/20 else 7/10,
           extractedFrom := ⟨s.id, s.projectId, s.timestampIso⟩ }

/-- `extractBreakthroughMoments(session, content)`. -/
def extractBreakthroughMoments (s : ExtractSession) (content : List Char) :
    List ConsciousnessPattern :=
  (sentencesOf 10 content).filterMap (emitBreak s)

/-- The 9 collaboration indicators of `extractCollaborationPatterns`. -/
def collaborationIndicators : List (List Char) :=
  ["we should".data, "let\x27s".data, "together".data, "collaboration".data,
   "partnership".data, "co-create".data, "working with".data,
   "human-ai".data, "consciousness".data]

/-- The per-sentence body of the `extractCollaborationPatterns` loop. -/
def emitCollaboration (s : ExtractSession) (sentence : List Char) :
    Option ConsciousnessPattern :=
  let lowerSentence := jsLower sentence
  let collaborationMatches :=
    (collaborationIndicators.filter (fun ind => hasSub lowerSentence ind)).length
  if 1 ≤ collaborationMatches then
    some { type := .collaboration_pattern,
           content := trimL sentence,
           context := ("Collaboration insight in session ".data) ++ s.id,
           confidence := jsMin ((collaborationMatches : ℚ) / 3) (8/10),
           extractedFrom := ⟨s.id, s.projectId, s.timestampIso⟩ }
  else none

/-- `extractCollaborationPatterns(session, content)`. -/
def extractCollaborationPatterns (s : ExtractSession) (content : List Char) :
    List ConsciousnessPattern :=
  (sentencesOf 15 content).filterMap (emitCollaboration s)

/-- The 9 solution keywords of `extractSolutionApproaches`. -/
def solutionKeywords : List (List Char) :=
  ["approach".data, "method".data, "strategy".data, "technique".data,
   "process".data, "workflow".data, "methodology".data, "best practice".data,
   "pattern".data]

/-- The per-sentence body of the `extractSolutionApproaches` sentence loop. -/
def emitSolution (s : ExtractSession) (sentence : List Char) :
    Option ConsciousnessPattern :=
  let lowerSentence := jsLower sentence
  let solutionMatches :=
    (solutionKeywords.filter (fun kw => hasSub lowerSentence kw)).length
  if 1 ≤ solutionMatches ∧
      (hasSub lowerSentence ("how".data) || hasSub lowerSentence ("should".data)) then
    some { type := .solution_approach,
           content := trimL sentence,
           context := ("Solution discussion in session ".data) ++ s.id,
           confidence := jsMin ((solutionMatches : ℚ) / 2) (7/10),
           extractedFrom := ⟨s.id, s.projectId, s.timestampIso⟩ }
  else none

/-- `analyzeToolUsagePatterns(session.toolCalls)`.  `toolCalls.length` on an
absent field throws; `nowIso` stands for `new Date().toISOString()` at the
moment of the call.  The separator of the joined tool sequence reproduces the
source file's bytes (a mis-encoded arrow). -/
def analyzeToolUsagePatterns (toolCalls : Option (List SToolCall))
    (nowIso : List Char) : Except JsError (List ConsciousnessPattern) :=
  match toolCalls with
  | none => .error .typeError
  | some calls =>
    if calls.length = 0 then .ok []
    else if 3 ≤ calls.length then
      .ok [{ type := .solution_approach,
             content := ("Tool usage pattern: ".data) ++
               List.intercalate (" â†’ ".data) (calls.map (·.name)),
             context := ("Development workflow pattern with ".data) ++
               (Nat.repr calls.length).data ++ (" tool calls".data),
             confidence := 3/5,
             extractedFrom :=
               ⟨"extracted_from_tools".data, "tool_analysis".data, nowIso⟩ }]
    else .ok []

/-- `extractSolutionApproaches(session, content)`: tool-usage patterns first,
then the sentence scan; a thrown TypeError propagates. -/
def extractSolutionApproaches (s : ExtractSession) (content : List Char)
    (nowIso : List Char) : Except JsError (List ConsciousnessPattern) :=
  match analyzeToolUsagePatterns s.toolCalls nowIso with
  | .error e => .error e
  | .ok toolPatterns =>
    .ok (toolPatterns ++ (sentencesOf 20 content).filterMap (emitSolution s))

/-- `extractPatternsFromSession(session)`: run the four rule passes in source
order and keep only the patterns with `confidence > 0.5`; a thrown TypeError
from the content or tool-call accesses propagates. -/
def extractPatternsFromSession (nowIso : List Char) (s : ExtractSession) :
    Except JsError (List ConsciousnessPattern) :=
  match getSessionContent s with
  | .error e => .error e
  | .ok content =>
    match extractSolutionApproaches s content nowIso with
    | .error e => .error e
    | .ok solutions =>
      .ok ((extractTechnicalInsights s content ++
            extractBreakthroughMoments s content ++
            extractCollaborationPatterns s content ++ solutions).filter
        (fun p => decide ((1 : ℚ)/2 < p.confidence)))

/-! ## Bank store (`bank_manager.ts`) -/

/-- `Entity` (`interfaces.ts`), together with the two optional metadata
fields that `bank_manager.ts` itself reads or writes (`createdAt`,
`memoryBank` of `DeveloperConsciousnessEntity`).  Further optional metadata
rides along unchanged and is omitted. -/
structure Entity where
  name : List Char
  entityType : List Char
  observations : List (List Char)
  createdAt : Option (List Char)
  memoryBank : Option (List Char)
deriving DecidableEq

/-- `Relation` (`interfaces.ts`); `from` and `to` are renamed `from_` and
`to_` (Lean keywords). -/
structure Relation where
  from_ : List Char
  to_ : List Char
  relationType : List Char
  createdAt : Option (List Char)
  memoryBank : Option (List Char)
deriving DecidableEq

/-- `KnowledgeGraph` (`interfaces.ts`). -/
structure KnowledgeGraph where
  entities : List Entity
  relations : List Relation
deriving DecidableEq

/-- One non-blank line of a bank file, at parse granularity: a well-formed
record with `type: "entity"`, one with `type: "relation"`, a well-formed JSON
line with any other `type`, or a line `JSON.parse` rejects. -/
inductive BankLine
  | entityLine (e : Entity)
  | relationLine (r : Relation)
  | otherLine
  | malformedLine
deriving DecidableEq

/-- The outcome of `fs.readFile` on a bank file: contents (as parsed lines),
`ENOENT`, or any other I/O failure. -/
inductive BankFileRead
  | content (lines : List BankLine)
  | enoent
  | readError
deriving DecidableEq

/-- A read failure other than `ENOENT`, rethrown to the caller. -/
inductive BankFsError
  | ioFailure
deriving DecidableEq

/-- The `reduce` step of `loadBankGraph`: push entities and relations, ignore
everything else (a malformed line is logged with `console.warn` and skipped). -/
def loadStep (g : KnowledgeGraph) : BankLine → KnowledgeGraph
  | .entityLine e => ⟨g.entities ++ [e], g.relations⟩
  | .relationLine r => ⟨g.entities, g.relations ++ [r]⟩
  | .otherLine => g
  | .malformedLine => g

/-- `loadBankGraph(bank)`: `ENOENT` yields the empty graph, any other read
failure propagates, and the non-blank lines are folded left to right. -/
def loadBankGraph : BankFileRead → Except BankFsError KnowledgeGraph
  | .enoent => .ok ⟨[], []⟩
  | .readError => .error .ioFailure
  | .content lines => .ok (lines.foldl loadStep ⟨[], []⟩)

/-- `saveBankGraph(bank, graph)`: serialize every entity then every relation,
one line each, as `{ type: ..., memoryBank: bank.name, ...record }`.  Because
the spread comes last, a record that already carries a `memoryBank` field
overrides the tag written before it. -/
def saveBankGraph (bankName : List Char) (g : KnowledgeGraph) : List BankLine :=
  g.entities.map (fun e =>
    .entityLine { e with memoryBank := some (e.memoryBank.getD bankName) }) ++
  g.relations.map (fun r =>
    .relationLine { r with memoryBank := some (r.memoryBank.getD bankName) })

/-- `createEntitiesInBank(bankName, entities)` on the graph it loaded:
filter out every incoming entity whose name already exists in the loaded
graph, stamp survivors with `createdAt` and `memoryBank`, append, and return
the updated graph (which is saved) together with the newly stored entities. -/
def createEntitiesInBank (bankName : List Char) (g : KnowledgeGraph)
    (entities : List Entity) (timestamp : List Char) :
    KnowledgeGraph × List Entity :=
  let newEntities :=
    (entities.filter (fun e =>
      !(g.entities.any (fun existingEntity => existingEntity.name == e.name)))).map
      (fun e => { e with createdAt := some timestamp, memoryBank := some bankName })
  (⟨g.entities ++ newEntities, g.relations⟩, newEntities)

/-! ## Unified ranker / search (`unified_search.ts`) -/

/-- The `source` discriminator of `UnifiedConsciousnessResult`. -/
inductive RSource
  | session
  | memory_bank
deriving DecidableEq

/-- `UnifiedConsciousnessResult` (`interfaces.ts`); the `context` object is
flattened, and `context.timestamp` is modelled as the epoch-millisecond value
`new Date(timestamp).getTime()` yields when the field is present and
parseable. -/
structure UnifiedConsciousnessResult where
  source : RSource
  bankName : Option (List Char)
  entityName : Option (List Char)
  content : List Char
  relevanceScore : ℚ
  ctxProjectId : Option (List Char)
  ctxSessionId : Option (List Char)
  ctxTimestamp : Option ℚ
deriving DecidableEq

/-- `calculateFinalScore(result, query)` with `Date.now()` passed in as
`now` (epoch milliseconds): session boost, high-confidence bank boost,
recency boost, and exact-phrase boost, applied in source order. -/
def calculateFinalScore (now : ℚ) (query : List Char)
    (r : UnifiedConsciousnessResult) : ℚ :=
  let s0 := r.relevanceScore
  let s1 := if r.source = .session then s0 * (11/10) else s0
  let s2 := if r.source = .memory_bank ∧ 8 < r.relevanceScore then
      s1 * (23/20) else s1
  let s3 :=
    match r.ctxTimestamp with
    | none => s2
    | some t =>
      let daysSinceCreation := (now - t) / 86400000
      if daysSinceCreation ≤ 30 then s2 * (6/5)
      else if daysSinceCreation ≤ 90 then s2 * (11/10)
      else s2
  if hasSub (jsLower r.content) (jsLower query) then s3 * (13/10) else s3

/-- `rankUnifiedResults(results, query)`: pair every result with its final
score, sort descending by that score (JS `Array.prototype.sort` is stable;
`mergeSort` is the stable sort), then strip the score again. -/
def rankUnifiedResults (now : ℚ) (query : List Char)
    (results : List UnifiedConsciousnessResult) :
    List UnifiedConsciousnessResult :=
  (((results.map (fun r => (r, calculateFinalScore now query r))).mergeSort
      (fun a b => decide (b.2 ≤ a.2))).map Prod.fst)

/-- One element of the caller-supplied session search function's output,
restricted to the fields `searchSessions` reads; `timestampMs` stands for
`session.timestamp` as epoch milliseconds. -/
structure SessionSearchResult where
  sessionId : List Char
  projectId : List Char
  timestampMs : ℚ
  relevance : ℚ
  matchedContent : List (List Char)
deriving DecidableEq

/-- The `searchSessions` mapping of one session hit into the unified shape. -/
def searchSessionsMap (r : SessionSearchResult) : UnifiedConsciousnessResult :=
  { source := .session,
    bankName := none,
    entityName := none,
    content := List.intercalate (" | ".data) r.matchedContent,
    relevanceScore := r.relevance,
    ctxProjectId := some r.projectId,
    ctxSessionId := some r.sessionId,
    ctxTimestamp := some r.timestampMs }

/-- `searchAllConsciousness(query, sessionSearchFunction)` with the two
collaborator result sets passed in: map session hits into the unified shape,
concatenate with the memory-bank results, and rank. -/
def searchAllConsciousness (now : ℚ) (query : List Char)
    (sessionResults : List SessionSearchResult)
    (memoryResults : List UnifiedConsciousnessResult) :
    List UnifiedConsciousnessResult :=
  rankUnifiedResults now query
    (sessionResults.map searchSessionsMap ++ memoryResults)

/-- Decidable equality of `Except` values (used to evaluate the models on
concrete inputs). -/
instance {ε α : Type} [DecidableEq ε] [DecidableEq α] :
    DecidableEq (Except ε α) := fun a b =>
  match a, b with
  | .ok x, .ok y =>
    if h : x = y then .isTrue (by rw [h]) else
      .isFalse (by intro hc; cases hc; exact h rfl)
  | .error x, .error y =>
    if h : x = y then .isTrue (by rw [h]) else
      .isFalse (by intro hc; cases hc; exact h rfl)
  | .ok _, .error _ => .isFalse (by intro hc; cases hc)
  | .error _, .ok _ => .isFalse (by intro hc; cases hc)

/-! ## Concrete inputs used by counterexamples and witnesses -/

/-- A batch entity named `n`, first copy. -/
def dupEntityA : Entity := ⟨"n".data, "t".data, [], none, none⟩

/-- A batch entity named `n`, second copy (different `entityType`). -/
def dupEntityB : Entity := ⟨"n".data, "u".data, [], none, none⟩

/-- An entity that already carries its own `memoryBank` field. -/
def taggedEntity : Entity := ⟨"n".data, "t".data, [], none, some ("other".data)⟩

/-- A fresh entity for the idempotence witness. -/
def freshEntity : Entity :=
  ⟨"Auth Pattern".data, "technical_insight".data, ["uses JWT".data], none, none⟩

/-- A session whose `messages` field is absent. -/
def sessionNoMessages : ExtractSession :=
  ⟨"s1".data, "p1".data, "2025-01-01T00:00:00.000Z".data, none, some []⟩

/-- A session whose `toolCalls` field is absent. -/
def sessionNoToolCalls : ExtractSession :=
  ⟨"s1".data, "p1".data, "2025-01-01T00:00:00.000Z".data, some [], none⟩

/-- A session with both transcript fields present but empty. -/
def sessionEmptyFields : ExtractSession :=
  ⟨"s1".data, "p1".data, "2025-01-01T00:00:00.000Z".data, some [], some []⟩

/-- The sentence (and sole message) matching exactly two technical keywords
(`architecture`, `algorithm`). -/
def twoKeywordSentence : List Char :=
  "the architecture choice and the algorithm design were both discussed at length".data

/-- A sentence matching exactly one technical keyword (`architecture`). -/
def oneKeywordSentence : List Char :=
  "the architecture choice was discussed at length today".data

/-- A session whose single message is `twoKeywordSentence`. -/
def twoKeywordSession : ExtractSession :=
  ⟨"s1".data, "p1".data, "2025-01-01T00:00:00.000Z".data,
   some [⟨twoKeywordSentence⟩], some []⟩

/-- A sentence containing the special marker `exactly :p` in mixed case. -/
def markerSentence : List Char := "This Works Exactly :P for us".data

/-- A sentence containing the indicator `breakthrough` and no marker. -/
def breakthroughSentence : List Char := "what a breakthrough this is".data

/-- A memory-bank result with relevance `score` and no other boosts. -/
def bankResult (score : ℚ) : UnifiedConsciousnessResult :=
  ⟨.memory_bank, none, none, "c".data, score, none, none, none⟩

/-- A session result identical to `bankResult score` except for `source`. -/
def sessionResult (score : ℚ) : UnifiedConsciousnessResult :=
  ⟨.session, none, none, "c".data, score, none, none, none⟩

/-! ## Helper lemmas -/

/-- Folding entity lines appends the entities in order. -/
theorem foldl_loadStep_entityLines (es : List Entity) :
    ∀ g0 : KnowledgeGraph,
      (es.map BankLine.entityLine).foldl loadStep g0 =
        ⟨g0.entities ++ es, g0.relations⟩ := by
  induction es with
  | nil => intro g0; simp
  | cons e es ih =>
    intro g0
    simp only [List.map_cons, List.foldl_cons, loadStep, ih,
      List.append_assoc, List.singleton_append]

/-- Folding relation lines appends the relations in order. -/
theorem foldl_loadStep_relationLines (rs : List Relation) :
    ∀ g0 : KnowledgeGraph,
      (rs.map BankLine.relationLine).foldl loadStep g0 =
        ⟨g0.entities, g0.relations ++ rs⟩ := by
  induction rs with
  | nil => intro g0; simp
  | cons r rs ih =>
    intro g0
    simp only [List.map_cons, List.foldl_cons, loadStep, ih,
      List.append_assoc, List.singleton_append]

/-- Every fragment `splitOn` produces is free of delimiter characters. -/
theorem splitOn_fragment_not_delim (p : Char → Bool) :
    ∀ l : List Char, ∀ f ∈ splitOn p l, ∀ c ∈ f, p c = false := by
  intro l
  induction l with
  | nil =>
    intro f hf c hc
    simp only [splitOn, List.mem_singleton] at hf
    subst hf
    simp at hc
  | cons a as ih =>
    intro f hf c hc
    rcases hrec : splitOn p as with _ | ⟨f0, rest⟩ <;> rcases hpa : p a
    · simp only [splitOn, hrec, hpa, List.mem_singleton] at hf
      subst hf
      rw [List.mem_singleton] at hc
      subst hc
      exact hpa
    · simp only [splitOn, hrec, hpa, List.mem_singleton] at hf
      subst hf
      simp at hc
    · simp only [splitOn, hrec, hpa] at hf
      rcases List.mem_cons.mp hf with h | h
      · subst h
        rcases List.mem_cons.mp hc with h2 | h2
        · subst h2; exact hpa
        · exact ih f0 (by rw [hrec]; exact List.mem_cons_self _ _) c h2
      · exact ih f (by rw [hrec]; exact List.mem_cons_of_mem _ h) c hc
    · simp only [splitOn, hrec, hpa] at hf
      rcases List.mem_cons.mp hf with h | h
      · subst h; simp at hc
      · exact ih f (by rw [hrec]; exact h) c hc

/-- A prefix only uses characters of the larger list. -/
theorem mem_of_hasPrefixC :
    ∀ (hay needle : List Char), hasPrefixC hay needle = true →
      ∀ c ∈ needle, c ∈ hay := by
  intro hay
  induction hay with
  | nil =>
    intro needle h c hc
    cases needle with
    | nil => simp at hc
    | cons n ns => simp [hasPrefixC] at h
  | cons h0 hs ih =>
    intro needle hpre c hc
    cases needle with
    | nil => simp at hc
    | cons n ns =>
      simp only [hasPrefixC, Bool.and_eq_true, beq_iff_eq] at hpre
      rcases List.mem_cons.mp hc with h | h
      · subst h; rw [← hpre.1]; exact List.mem_cons_self _ _
      · exact List.mem_cons_of_mem _ (ih ns hpre.2 c h)

/-- A contained substring only uses characters of the containing list. -/
theorem mem_of_hasSub :
    ∀ (hay needle : List Char), hasSub hay needle = true →
      ∀ c ∈ needle, c ∈ hay := by
  intro hay
  induction hay with
  | nil =>
    intro needle h c hc
    rw [hasSub, List.isEmpty_iff] at h
    subst h
    simp at hc
  | cons h0 hs ih =>
    intro needle h c hc
    rw [hasSub, Bool.or_eq_true] at h
    rcases h with h | h
    · exact mem_of_hasPrefixC _ _ h c hc
    · exact List.mem_cons_of_mem _ (ih needle h c hc)

/-- The only character that `Char.toLower` sends to `'!'` is `'!'` itself. -/
theorem toLower_eq_bang {c : Char} (h : c.toLower = '!') : c = '!' := by
  unfold Char.toLower at h
  by_cases hn : c.toNat ≥ 65 ∧ c.toNat ≤ 90
  · exfalso
    rw [if_pos hn] at h
    have hvalid : (c.toNat + 32).isValidChar := by
      unfold Nat.isValidChar
      left
      omega
    rw [Char.ofNat, dif_pos hvalid] at h
    have h2 : (Char.ofNatAux (c.toNat + 32) hvalid).toNat = c.toNat + 32 := rfl
    rw [h] at h2
    have h3 : ('!').toNat = 33 := rfl
    omega
  · rw [if_neg hn] at h
    exact h

/-- If `'!'` occurs in a lowercased list it already occurred in the list. -/
theorem bang_mem_of_mem_jsLower {s : List Char} (h : '!' ∈ jsLower s) :
    '!' ∈ s := by
  obtain ⟨c, hc, he⟩ := List.mem_map.mp h
  rwa [toLower_eq_bang he] at hc

/-! ## Claim theorems -/

/-- Claim C6: `loadBankGraph` is total on file contents.  A missing file
yields the empty graph without an error; file contents never produce an
error; a malformed line is skipped without affecting the rest of the load;
any other read failure propagates to the caller. -/
theorem claim6_load_total :
    loadBankGraph .enoent = Except.ok ⟨[], []⟩
    ∧ (∀ lines, ∃ g, loadBankGraph (.content lines) = Except.ok g)
    ∧ (∀ l1 l2 : List BankLine,
        loadBankGraph (.content (l1 ++ BankLine.malformedLine :: l2)) =
          loadBankGraph (.content (l1 ++ l2)))
    ∧ loadBankGraph .readError = Except.error .ioFailure := by
  refine ⟨rfl, fun lines => ⟨_, rfl⟩, fun l1 l2 => ?_, rfl⟩
  simp only [loadBankGraph, Except.ok.injEq]
  rw [show BankLine.malformedLine :: l2 = [BankLine.malformedLine] ++ l2 from rfl,
    ← List.append_assoc, List.foldl_append, List.foldl_append,
    List.foldl_append]
  rfl

/-- Claim C5, counterexample: a record that already carries a `memoryBank`
field is NOT re-tagged with the owning bank's name on save — the JS spread
`{ type, memoryBank: bank.name, ...e }` lets the record's own field override
the tag — so the reloaded record is not tagged with the owning bank name. -/
theorem claim5_counterexample :
    loadBankGraph (.content (saveBankGraph ("development_patterns".data)
        ⟨[taggedEntity], []⟩)) =
      Except.ok ⟨[taggedEntity], []⟩
    ∧ taggedEntity.memoryBank ≠ some ("development_patterns".data) := by
  constructor
  · rfl
  · decide

/-- Claim C5, amended: `saveBankGraph` followed by `loadBankGraph` yields the
same entities and the same relations in insertion order, each tagged with its
type discriminator, and with the owning bank name exactly when the record did
not already carry a `memoryBank` field (a record's own `memoryBank` value
overrides the tag). -/
theorem claim5_roundtrip (bankName : List Char) (g : KnowledgeGraph) :
    loadBankGraph (.content (saveBankGraph bankName g)) =
      Except.ok
        ⟨g.entities.map (fun e =>
            { e with memoryBank := some (e.memoryBank.getD bankName) }),
         g.relations.map (fun r =>
            { r with memoryBank := some (r.memoryBank.getD bankName) })⟩ := by
  simp only [loadBankGraph, saveBankGraph, Except.ok.injEq]
  rw [List.foldl_append]
  rw [show (g.entities.map (fun e =>
        BankLine.entityLine { e with memoryBank := some (e.memoryBank.getD bankName) }))
      = ((g.entities.map (fun e =>
          ({ e with memoryBank := some (e.memoryBank.getD bankName) } : Entity))).map
            BankLine.entityLine) from by rw [List.map_map]; rfl]
  rw [show (g.relations.map (fun r =>
        BankLine.relationLine { r with memoryBank := some (r.memoryBank.getD bankName) }))
      = ((g.relations.map (fun r =>
          ({ r with memoryBank := some (r.memoryBank.getD bankName) } : Relation))).map
            BankLine.relationLine) from by rw [List.map_map]; rfl]
  rw [foldl_loadStep_entityLines, foldl_loadStep_relationLines]
  rfl

/-- Claim C2, counterexample: two entities in the same input batch that share
a new name are BOTH stored — the dedup filter only consults the graph loaded
before the call, not the other batch members — so the bank ends up with two
entities of the same name after one `createEntitiesInBank`. -/
theorem claim2_counterexample :
    ((createEntitiesInBank ("development_patterns".data) ⟨[], []⟩
        [dupEntityA, dupEntityB] ("t0".data)).1.entities.countP
      (fun e => decide (e.name = ("n".data)))) = 2 := by
  decide

/-- Claim C2, amended: per-name dedup holds only against the entities already
in the bank before the call.  For every name `n`: if `n` already exists in
the loaded graph, the call adds no entity named `n`; otherwise every batch
member named `n` is stored, so a batch can introduce duplicates by itself. -/
theorem claim2_name_count (bankName : List Char) (g : KnowledgeGraph)
    (es : List Entity) (ts n : List Char) :
    ((createEntitiesInBank bankName g es ts).1.entities.countP
        (fun e => decide (e.name = n))) =
      g.entities.countP (fun e => decide (e.name = n)) +
        if ∃ ex ∈ g.entities, ex.name = n then 0
        else es.countP (fun e => decide (e.name = n)) := by
  simp only [createEntitiesInBank, List.countP_append, List.countP_map]
  congr 1
  have hcomp :
      ((fun e => decide (e.name = n)) ∘
        (fun e => { e with createdAt := some ts, memoryBank := some bankName })) =
      fun e : Entity => decide (e.name = n) := rfl
  rw [hcomp, List.countP_filter]
  by_cases hex : ∃ ex ∈ g.entities, ex.name = n
  · rw [if_pos hex]
    rw [List.countP_eq_zero]
    intro e _
    obtain ⟨ex, hmem, hexn⟩ := hex
    simp only [Bool.and_eq_true, decide_eq_true_eq, Bool.not_eq_true', not_and,
      List.any_eq_false]
    intro hen
    intro hall
    exact absurd (by rw [beq_iff_eq, hexn, hen]) (hall ex hmem)
  · rw [if_neg hex]
    apply List.countP_congr
    intro e _
    simp only [Bool.and_eq_true, decide_eq_true_eq, Bool.not_eq_true',
      List.any_eq_false]
    constructor
    · intro h; exact h.1
    · intro hen
      refine ⟨hen, fun ex hmem => ?_⟩
      rw [beq_iff_eq, hen]
      intro hexn
      exact hex ⟨ex, hmem, hexn⟩

/-- Claim C7: `createEntitiesInBank` is idempotent on a fresh entity name —
the first call stores the stamped entity, the second call stores nothing,
returns the empty list, leaves the graph unchanged, and the entity's name
occurs exactly once in the bank. -/
theorem claim7_idempotent (bankName : List Char) (g : KnowledgeGraph)
    (e : Entity) (t1 t2 : List Char)
    (hfresh : ∀ ex ∈ g.entities, ex.name ≠ e.name) :
    (createEntitiesInBank bankName
        (createEntitiesInBank bankName g [e] t1).1 [e] t2).2 = []
    ∧ (createEntitiesInBank bankName
        (createEntitiesInBank bankName g [e] t1).1 [e] t2).1 =
      (createEntitiesInBank bankName g [e] t1).1
    ∧ ((createEntitiesInBank bankName
          (createEntitiesInBank bankName g [e] t1).1 [e] t2).1.entities.countP
        (fun x => decide (x.name = e.name))) = 1 := by
  have hany : g.entities.any (fun ex => ex.name == e.name) = false := by
    rw [List.any_eq_false]
    intro ex hmem
    rw [beq_iff_eq]
    exact hfresh ex hmem
  have hfirst : createEntitiesInBank bankName g [e] t1 =
      (⟨g.entities ++
          [{ e with createdAt := some t1, memoryBank := some bankName }],
        g.relations⟩,
       [{ e with createdAt := some t1, memoryBank := some bankName }]) := by
    simp [createEntitiesInBank, hany]
  have hany2 : ((g.entities ++
      [{ e with createdAt := some t1, memoryBank := some bankName }]).any
        (fun ex => ex.name == e.name)) = true := by
    rw [List.any_eq_true]
    exact ⟨{ e with createdAt := some t1, memoryBank := some bankName },
      List.mem_append_right _ (List.mem_singleton.mpr rfl), by simp⟩
  have hsecond : createEntitiesInBank bankName
      (createEntitiesInBank bankName g [e] t1).1 [e] t2 =
      ((createEntitiesInBank bankName g [e] t1).1, []) := by
    rw [hfirst]
    simp [createEntitiesInBank, hany2]
  refine ⟨by rw [hsecond], by rw [hsecond], ?_⟩
  rw [hsecond, hfirst]
  simp only [List.countP_append, List.countP_cons, List.countP_nil,
    decide_eq_true_eq]
  rw [List.countP_eq_zero.mpr]
  · simp
  · intro x hmem
    simp only [decide_eq_true_eq]
    exact hfresh x hmem

/-- Claim C7, witness: a concrete fresh entity stored into an empty bank
twice is stored once and the second call returns the empty list. -/
theorem claim7_witness :
    (createEntitiesInBank ("development_patterns".data)
        (createEntitiesInBank ("development_patterns".data) ⟨[], []⟩
          [freshEntity] ("t1".data)).1 [freshEntity] ("t2".data)).2 = []
    ∧ ((createEntitiesInBank ("development_patterns".data)
          (createEntitiesInBank ("development_patterns".data) ⟨[], []⟩
            [freshEntity] ("t1".data)).1 [freshEntity] ("t2".data)).1.entities.countP
        (fun x => decide (x.name = freshEntity.name))) = 1 := by
  have h := claim7_idempotent ("development_patterns".data) ⟨[], []⟩
    freshEntity ("t1".data) ("t2".data) (by intro ex hmem; simp at hmem)
  exact ⟨h.1, h.2.2⟩

/-- Claim C3, counterexample: `extractPatternsFromSession` DOES raise when a
transcript field is absent — `session.messages.map` (resp.
`session.toolCalls.length`) is a TypeError on `undefined`; there is no
defaulting to an empty collection. -/
theorem claim3_counterexample :
    extractPatternsFromSession ("2025-01-01T00:00:00.000Z".data)
        sessionNoMessages = Except.error .typeError
    ∧ extractPatternsFromSession ("2025-01-01T00:00:00.000Z".data)
        sessionNoToolCalls = Except.error .typeError :=
  ⟨rfl, rfl⟩

/-- Claim C3, amended: extraction fails with a TypeError whenever `messages`
or `toolCalls` is absent; when both fields are present but empty it returns
zero patterns without an error. -/
theorem claim3_missing_fields (nowIso : List Char) (s : ExtractSession) :
    (s.messages = none →
      extractPatternsFromSession nowIso s = Except.error .typeError)
    ∧ (s.toolCalls = none → s.messages ≠ none →
      extractPatternsFromSession nowIso s = Except.error .typeError)
    ∧ (s.messages = some [] → s.toolCalls = some [] →
      extractPatternsFromSession nowIso s = Except.ok []) := by
  refine ⟨?_, ?_, ?_⟩
  · intro h
    simp [extractPatternsFromSession, getSessionContent, h]
  · intro ht hm
    obtain ⟨ms, hms⟩ := Option.ne_none_iff_exists'.mp hm
    simp [extractPatternsFromSession, getSessionContent, hms,
      extractSolutionApproaches, analyzeToolUsagePatterns, ht]
  · intro hm ht
    cases s
    simp only at hm ht
    subst hm
    subst ht
    rfl

/-- Claim C3, witness: the amended claim instantiated at a session without
`messages`, a session without `toolCalls`, and a session with both fields
present but empty. -/
theorem claim3_witness :
    extractPatternsFromSession ("t".data) sessionNoMessages =
      Except.error .typeError
    ∧ extractPatternsFromSession ("t".data) sessionNoToolCalls =
      Except.error .typeError
    ∧ extractPatternsFromSession ("t".data) sessionEmptyFields =
      Except.ok [] :=
  ⟨(claim3_missing_fields ("t".data) sessionNoMessages).1 rfl,
   (claim3_missing_fields ("t".data) sessionNoToolCalls).2.1 rfl (by decide),
   (claim3_missing_fields ("t".data) sessionEmptyFields).2.2 rfl rfl⟩

unseal Rat.mul Rat.inv Rat.add Rat.sub in
/-- Claim C4, counterexample: a sentence matching exactly 2 of the 14
technical keywords IS emitted by the technical rule, but with confidence
`min(2/14*2, 0.9) = 2/7 ≤ 0.5`, so the quality gate of
`extractPatternsFromSession` drops it — the final result is empty, not a
technical-insight pattern. -/
theorem claim4_counterexample :
    keywordMatchCount twoKeywordSentence = 2
    ∧ getSessionContent twoKeywordSession = Except.ok twoKeywordSentence
    ∧ twoKeywordSentence ∈ sentencesOf 20 twoKeywordSentence
    ∧ (extractTechnicalInsights twoKeywordSession twoKeywordSentence).map
        (·.confidence) = [2/7]
    ∧ extractPatternsFromSession ("t".data) twoKeywordSession = Except.ok [] := by
  refine ⟨by decide, by decide, by decide, by decide, by decide⟩

/-- Claim C4, amended: one keyword match emits nothing; exactly two matches
emit a technical-insight pattern with confidence `min(2/14*2, 0.9) = 2/7` at
the rule level, but `2/7 ≤ 1/2`, and every pattern surviving
`extractPatternsFromSession` has confidence strictly above `1/2` — so the
two-match pattern never appears in the final result. -/
theorem claim4_technical_gate (nowIso : List Char) (s : ExtractSession)
    (sentence : List Char) (res : List ConsciousnessPattern) :
    (keywordMatchCount sentence = 1 → emitTechnical s sentence = none)
    ∧ (keywordMatchCount sentence = 2 →
        emitTechnical s sentence = some
          { type := .technical_insight,
            content := trimL sentence,
            context := ("Technical discussion in session ".data) ++ s.id,
            confidence := 2/7,
            extractedFrom := ⟨s.id, s.projectId, s.timestampIso⟩ }
        ∧ ¬((1 : ℚ)/2 < 2/7))
    ∧ (extractPatternsFromSession nowIso s = Except.ok res →
        ∀ p ∈ res, (1 : ℚ)/2 < p.confidence) := by
  refine ⟨?_, ?_, ?_⟩
  · intro h
    simp [emitTechnical, h]
  · intro h
    refine ⟨?_, by norm_num⟩
    norm_num [emitTechnical, h, jsMin, technicalKeywords]
  · intro hok p hp
    unfold extractPatternsFromSession at hok
    split at hok
    · exact Except.noConfusion hok
    · split at hok
      · exact Except.noConfusion hok
      · simp only [Except.ok.injEq] at hok
        rw [← hok] at hp
        exact of_decide_eq_true (List.mem_filter.mp hp).2

unseal Rat.mul Rat.inv Rat.add Rat.sub in
/-- Claim C4, witness: instantiating the amended claim at a one-keyword
sentence, at the concrete two-keyword sentence, and at the session whose
extraction result is empty. -/
theorem claim4_witness :
    emitTechnical twoKeywordSession oneKeywordSentence = none
    ∧ emitTechnical twoKeywordSession twoKeywordSentence = some
        { type := .technical_insight,
          content := trimL twoKeywordSentence,
          context := ("Technical discussion in session ".data) ++
            twoKeywordSession.id,
          confidence := 2/7,
          extractedFrom := ⟨twoKeywordSession.id, twoKeywordSession.projectId,
            twoKeywordSession.timestampIso⟩ }
    ∧ (∀ p ∈ ([] : List ConsciousnessPattern), (1 : ℚ)/2 < p.confidence) := by
  refine ⟨?_, ?_, ?_⟩
  · exact (claim4_technical_gate ("t".data) twoKeywordSession
      oneKeywordSentence []).1 (by decide)
  · exact ((claim4_technical_gate ("t".data) twoKeywordSession
      twoKeywordSentence []).2.1 (by decide)).1
  · exact (claim4_technical_gate ("t".data) twoKeywordSession
      twoKeywordSentence []).2.2 (by decide)

/-- Claim C8: a sentence whose lowercasing contains the marker `exactly :p`
is matched by the FIRST indicator of the list, so the per-sentence loop
emits exactly one breakthrough pattern, with confidence exactly `0.95`
(not the default `0.7`); when the sentence survives the length filter the
pattern appears in `extractBreakthroughMoments`. -/
theorem claim8_exactly_marker (s : ExtractSession) (content sentence : List Char)
    (hmem : sentence ∈ sentencesOf 10 content)
    (hsub : hasSub (jsLower sentence) ("exactly :p".data) = true) :
    emitBreak s sentence = some
      { type := .breakthrough_moment,
        content := trimL sentence,
        context := ("Breakthrough discovery in session ".data) ++ s.id,
        confidence := 19/20,
        extractedFrom := ⟨s.id, s.projectId, s.timestampIso⟩ }
    ∧ ({ type := .breakthrough_moment,
         content := trimL sentence,
         context := ("Breakthrough discovery in session ".data) ++ s.id,
         confidence := 19/20,
         extractedFrom := ⟨s.id, s.projectId, s.timestampIso⟩ } :
        ConsciousnessPattern) ∈ extractBreakthroughMoments s content := by
  have hemit : emitBreak s sentence = some
      { type := .breakthrough_moment,
        content := trimL sentence,
        context := ("Breakthrough discovery in session ".data) ++ s.id,
        confidence := 19/20,
        extractedFrom := ⟨s.id, s.projectId, s.timestampIso⟩ } := by
    unfold emitBreak
    simp only [breakthroughIndicators]
    rw [List.find?_cons_of_pos _ hsub]
    simp
  refine ⟨hemit, ?_⟩
  unfold extractBreakthroughMoments
  exact List.mem_filterMap.mpr ⟨sentence, hmem, hemit⟩

/-- Claim C8, witness: the mixed-case marker sentence yields the 0.95
pattern. -/
theorem claim8_witness :
    emitBreak sessionEmptyFields markerSentence = some
      { type := .breakthrough_moment,
        content := trimL markerSentence,
        context := ("Breakthrough discovery in session ".data) ++
          sessionEmptyFields.id,
        confidence := 19/20,
        extractedFrom := ⟨sessionEmptyFields.id, sessionEmptyFields.projectId,
          sessionEmptyFields.timestampIso⟩ }
    ∧ ({ type := .breakthrough_moment,
         content := trimL markerSentence,
         context := ("Breakthrough discovery in session ".data) ++
           sessionEmptyFields.id,
         confidence := 19/20,
         extractedFrom := ⟨sessionEmptyFields.id, sessionEmptyFields.projectId,
           sessionEmptyFields.timestampIso⟩ } :
        ConsciousnessPattern) ∈
      extractBreakthroughMoments sessionEmptyFields markerSentence :=
  claim8_exactly_marker sessionEmptyFields markerSentence markerSentence
    (by decide) (by decide)

/-- Claim C10: sentences are produced by splitting on `.`/`!`/`?`, so no
sentence contains `'!'`; hence an indicator selected by the matching loop
never contains `'!'`, and only the six exclamation-free indicators can ever
fire. -/
theorem claim10_bang_indicators_dead (content sentence ind : List Char)
    (hmem : sentence ∈ splitOn sentenceDelim content)
    (hfind : breakthroughIndicators.find?
        (fun i => hasSub (jsLower sentence) i) = some ind) :
    '!' ∉ ind
    ∧ ind ∈ [("exactly :p".data), ("breakthrough".data), ("genius".data),
        ("beautiful".data), ("wonderful".data), ("amazing".data)] := by
  have hnobang : '!' ∉ jsLower sentence := by
    intro h
    have h2 := bang_mem_of_mem_jsLower h
    have h3 := splitOn_fragment_not_delim sentenceDelim content sentence hmem
      '!' h2
    simp [sentenceDelim] at h3
  have hsubset := mem_of_hasSub _ _ (List.find?_some hfind)
  have hni : '!' ∉ ind := fun hbang => hnobang (hsubset '!' hbang)
  refine ⟨hni, ?_⟩
  have h10 := List.mem_of_find?_eq_some hfind
  simp only [breakthroughIndicators, List.mem_cons, List.not_mem_nil,
    or_false] at h10
  rcases h10 with rfl|rfl|rfl|rfl|rfl|rfl|rfl|rfl|rfl|rfl <;>
    first
      | decide
      | exact absurd (by decide) hni

/-- Claim C10, witness: a sentence containing `breakthrough` is matched by
the `breakthrough` indicator, which is exclamation-free. -/
theorem claim10_witness :
    '!' ∉ ("breakthrough".data)
    ∧ ("breakthrough".data) ∈ [("exactly :p".data), ("breakthrough".data),
        ("genius".data), ("beautiful".data), ("wonderful".data),
        ("amazing".data)] :=
  claim10_bang_indicators_dead breakthroughSentence breakthroughSentence
    ("breakthrough".data) (by decide) (by decide)

/-- `calculateFinalScore` is the product of the raw relevance with the four
independent boost factors. -/
theorem calculateFinalScore_factor (now : ℚ) (query : List Char)
    (r : UnifiedConsciousnessResult) :
    calculateFinalScore now query r =
      r.relevanceScore
      * (if r.source = .session then 11/10 else 1)
      * (if r.source = .memory_bank ∧ 8 < r.relevanceScore then 23/20 else 1)
      * (match r.ctxTimestamp with
         | none => 1
         | some t =>
           if (now - t) / 86400000 ≤ 30 then 6/5
           else if (now - t) / 86400000 ≤ 90 then 11/10
           else 1)
      * (if hasSub (jsLower r.content) (jsLower query) then 13/10 else 1) := by
  unfold calculateFinalScore
  rcases r.ctxTimestamp with _ | t <;> simp only [] <;> split_ifs <;> ring

/-- Claim C1: for two results identical except for `source`, the bank boost
applies exactly when the shared relevance score strictly exceeds 8: above the
threshold the memory-bank result outscores the session result
(factor 23/20 beats 11/10), at or below it the session result outscores the
unboosted bank result.  The ranking sorts descending by this score. -/
theorem claim1_bank_boost_threshold (now : ℚ) (query : List Char)
    (rb rs : UnifiedConsciousnessResult)
    (hb : rb.source = .memory_bank) (hs : rs.source = .session)
    (hc : rb.content = rs.content)
    (hrel : rb.relevanceScore = rs.relevanceScore)
    (ht : rb.ctxTimestamp = rs.ctxTimestamp) :
    (8 < rb.relevanceScore →
      calculateFinalScore now query rs < calculateFinalScore now query rb)
    ∧ (0 < rb.relevanceScore → rb.relevanceScore ≤ 8 →
      calculateFinalScore now query rb < calculateFinalScore now query rs) := by
  rw [calculateFinalScore_factor, calculateFinalScore_factor, hb, hs, hc,
    hrel, ht]
  set R : ℚ := (match rs.ctxTimestamp with
    | none => 1
    | some t =>
      if (now - t) / 86400000 ≤ 30 then 6/5
      else if (now - t) / 86400000 ≤ 90 then 11/10
      else 1) with hR
  set P : ℚ := (if hasSub (jsLower rs.content) (jsLower query) then 13/10
    else 1) with hP
  have hRpos : 0 < R := by
    rw [hR]
    rcases rs.ctxTimestamp with _ | t
    · norm_num
    · simp only []
      split_ifs <;> norm_num
  have hPpos : 0 < P := by
    rw [hP]
    split_ifs <;> norm_num
  constructor
  · intro h8
    have hpos : (0 : ℚ) < rs.relevanceScore := lt_trans (by norm_num) h8
    have hprod : 0 < rs.relevanceScore * R * P :=
      mul_pos (mul_pos hpos hRpos) hPpos
    simp only [if_pos h8, show (RSource.memory_bank = RSource.session) = False
        from by simp, show (RSource.session = RSource.memory_bank) = False
        from by simp, if_false, false_and, and_true, if_true, if_pos rfl,
      show (RSource.memory_bank = RSource.memory_bank) = True from by simp,
      show (RSource.session = RSource.session) = True from by simp, true_and]
    nlinarith [hprod]
  · intro hpos h8
    have hn8 : ¬(8 < rs.relevanceScore) := not_lt.mpr h8
    have hprod : 0 < rs.relevanceScore * R * P :=
      mul_pos (mul_pos hpos hRpos) hPpos
    simp only [if_neg hn8, show (RSource.memory_bank = RSource.session) = False
        from by simp, show (RSource.session = RSource.memory_bank) = False
        from by simp, if_false, false_and, and_true, if_true, if_pos rfl,
      show (RSource.memory_bank = RSource.memory_bank) = True from by simp,
      show (RSource.session = RSource.session) = True from by simp, true_and,
      and_false]
    nlinarith [hprod]

/-- Claim C1, witness: at relevance 9 the bank result wins, at relevance 8
the session result wins. -/
theorem claim1_witness :
    calculateFinalScore 0 [] (sessionResult 9) <
      calculateFinalScore 0 [] (bankResult 9)
    ∧ calculateFinalScore 0 [] (bankResult 8) <
      calculateFinalScore 0 [] (sessionResult 8) :=
  ⟨(claim1_bank_boost_threshold 0 [] (bankResult 9) (sessionResult 9)
      rfl rfl rfl rfl rfl).1 (by norm_num [bankResult]),
   (claim1_bank_boost_threshold 0 [] (bankResult 8) (sessionResult 8)
      rfl rfl rfl rfl rfl).2 (by norm_num [bankResult])
     (by norm_num [bankResult])⟩

/-- Claim C9: `searchAllConsciousness` returns a permutation of its combined
input results (mapped session hits followed by memory-bank results) — so
every returned element is one of the inputs, with all its fields, in
particular `relevanceScore`, unchanged, and no final-score field exists on
the output type — ordered descending by the computed final score, which is
used only as the sort key. -/
theorem claim9_rank_perm_sorted (now : ℚ) (query : List Char)
    (sessionResults : List SessionSearchResult)
    (memoryResults : List UnifiedConsciousnessResult) :
    (searchAllConsciousness now query sessionResults memoryResults).Perm
      (sessionResults.map searchSessionsMap ++ memoryResults)
    ∧ (searchAllConsciousness now query sessionResults memoryResults).Pairwise
      (fun a b =>
        calculateFinalScore now query b ≤ calculateFinalScore now query a) := by
  unfold searchAllConsciousness rankUnifiedResults
  set inputs := sessionResults.map searchSessionsMap ++ memoryResults with hin
  set pairs := inputs.map (fun r => (r, calculateFinalScore now query r))
    with hpairs
  set le := fun a b : UnifiedConsciousnessResult × ℚ => decide (b.2 ≤ a.2)
    with hle
  have hperm : (pairs.mergeSort le).Perm pairs := List.mergeSort_perm pairs le
  have hsnd : ∀ p ∈ pairs.mergeSort le,
      p.2 = calculateFinalScore now query p.1 := by
    intro p hp
    have hmem : p ∈ pairs := hperm.mem_iff.mp hp
    rw [hpairs] at hmem
    obtain ⟨r, _, rfl⟩ := List.mem_map.mp hmem
    rfl
  constructor
  · have h1 := hperm.map Prod.fst
    have h2 : pairs.map Prod.fst = inputs := by
      rw [hpairs, List.map_map]
      exact List.map_id _
    rw [h2] at h1
    exact h1
  · have htrans : ∀ a b c : UnifiedConsciousnessResult × ℚ,
        le a b = true → le b c = true → le a c = true := by
      intro a b c hab hbc
      rw [hle] at hab hbc ⊢
      simp only [decide_eq_true_eq] at hab hbc ⊢
      exact le_trans hbc hab
    have htotal : ∀ a b : UnifiedConsciousnessResult × ℚ,
        (le a b || le b a) = true := by
      intro a b
      rw [hle]
      simp only [Bool.or_eq_true, decide_eq_true_eq]
      exact le_total b.2 a.2
    have hsorted := List.sorted_mergeSort htrans htotal pairs
    rw [List.pairwise_map]
    refine hsorted.imp_of_mem ?_
    intro a b ha hb hab
    rw [hle] at hab
    simp only [decide_eq_true_eq] at hab
    rw [hsnd a ha, hsnd b hb] at hab
    exact hab

end CCM
